import Mathlib

/-!
Verification of the request lifecycle engine of the Reacher (grab) HTTP
scraping toolkit, embedded shallowly from the Python sources.

The embedding covers:
* the redirect/dispatch loop of `Grab.request` together with
  `Grab.find_redirect_url`, `Grab.make_url_absolute` and
  `Grab.reset_temporary_options` (src/grab/base.py);
* the config copy discipline of `copy_config`, `Grab.clone`,
  `Grab.dump_config` and `Grab.load_config` (src/grab/base.py), over an
  explicit object heap so that Python aliasing is observable;
* key validation in `Grab.setup` (src/grab/base.py) over an
  association-list model of the config dict;
* the capped chunked body reader `Urllib3Transport.read_with_timeout`
  (src/grab/transport.py);
* the hook pipeline of `HttpClient.request` and
  `HttpClient.process_request_result` (src/grab/client.py);
* cookie broadcasting in `Urllib3Transport.process_cookie_options`
  (src/grab/transport.py).

External collaborators (the stdlib `urljoin`, the network, clock time and
the hook callables) are parameters of the model.  The cookie manager
(grab/cookie.py) is not part of the sources; where needed it is modelled
from the specification and marked as such.
-/

namespace Reacher

/-! ## Documents and engine configuration

`RDoc` models the part of a `Document` the engine inspects: the status
code and the `Location` header (`doc.headers["Location"]` is `None` in
Python when absent, hence `Option String`).  `tag` stands for the rest of
the payload and makes distinct documents distinguishable. -/

structure RDoc where
  code : Nat
  location : Option String
  tag : Nat
deriving DecidableEq, Repr

/-- Python truthiness of a `None`-or-string value: `None` and the empty
string are falsy. -/
def truthy : Option String → Bool
  | none => false
  | some s => s != ""

/-- The slice of the `Grab` config the request loop reads and writes:
`url`, the one-shot payload options `post`, `multipart_post`, `method`,
and the redirect options (defaults in `default_config`:
`follow_location = True`, `redirect_limit = 10`). -/
structure ConfigE where
  url : Option String
  post : Option String
  multipart_post : Option String
  method : Option String
  follow_location : Bool
  redirect_limit : Int
deriving DecidableEq, Repr

/-- Embeds `Grab.find_redirect_url` (src/grab/base.py lines 213-221):
returns the
`Location` header when redirect following is enabled, the status code is
one of 301, 302, 303, 307, 308 and the header is truthy. -/
def find_redirect_url (cfg : ConfigE) (doc : RDoc) : Option String :=
  if cfg.follow_location = true ∧ doc.code ∈ [301, 302, 303, 307, 308]
      ∧ truthy doc.location = true then
    doc.location
  else
    none

/-- Embeds `Grab.make_url_absolute` (src/grab/base.py lines 329-339) with
the
default `resolve_base=False` used on the redirect path: join against the
current config url when that is truthy.  `uj` is the stdlib `urljoin`
collaborator. -/
def make_url_absolute (uj : String → String → String) (cfg : ConfigE)
    (url : String) : String :=
  if truthy cfg.url then uj (cfg.url.getD "") url else url

/-- The `url` branch of `Grab.setup` (src/grab/base.py lines 174-176): a
`url` override is resolved against the current config url when the latter
is truthy, then stored. -/
def setup_url (uj : String → String → String) (cfg : ConfigE) (u : String) :
    ConfigE :=
  { cfg with
    url := some (if truthy cfg.url then make_url_absolute uj cfg u else u) }

/-- Embeds `Grab.reset_temporary_options` (src/grab/base.py lines
293-296). -/
def reset_temporary_options (cfg : ConfigE) : ConfigE :=
  { cfg with post := none, multipart_post := none, method := none }

/-- One dispatched attempt: the config values in force when the transport
request is issued. -/
structure Attempt where
  url : Option String
  post : Option String
  multipart_post : Option String
  method : Option String
deriving DecidableEq, Repr

def attemptOf (cfg : ConfigE) : Attempt :=
  ⟨cfg.url, cfg.post, cfg.multipart_post, cfg.method⟩

/-- Errors the request loop can surface: a classified transport error
(`GrabError` raised by `transport.request()`, carried here as a tag) or
`GrabTooManyRedirectsError`. -/
inductive EngErr where
  | transport (tag : Nat)
  | tooManyRedirects
deriving DecidableEq, Repr

/-- Result of one `Grab.request` call: the attempts dispatched in order,
the outcome, and the final config state. -/
structure RunOut where
  attempts : List Attempt
  outcome : Except EngErr RDoc
  final : ConfigE
deriving Repr

/-- The `while True` loop of `Grab.request` (src/grab/base.py lines
234-254).  `serve` is the network: a map from the dispatched url to the
prepared `Document` or to a classified transport error.  Mirroring the
source, each iteration: dispatches; on `GrabError` clears the one-shot
options and propagates; otherwise `process_request_result` clears the
one-shot options (src/grab/base.py line 284), then `find_redirect_url`
decides between returning the document, raising
`GrabTooManyRedirectsError` once the incremented counter exceeds
`redirect_limit`, or re-entering the loop with the absolutized
`Location`, which `setup` absolutizes a second time (line 175). -/
def requestRun (uj : String → String → String)
    (serve : String → Except Nat RDoc) (cfg : ConfigE) (redirCount : Int) :
    RunOut :=
  match serve (cfg.url.getD "") with
  | .error e =>
      ⟨[attemptOf cfg], .error (.transport e), reset_temporary_options cfg⟩
  | .ok doc =>
      match find_redirect_url (reset_temporary_options cfg) doc with
      | none => ⟨[attemptOf cfg], .ok doc, reset_temporary_options cfg⟩
      | some loc =>
          if redirCount + 1 > (reset_temporary_options cfg).redirect_limit then
            ⟨[attemptOf cfg], .error .tooManyRedirects,
              reset_temporary_options cfg⟩
          else
            let out := requestRun uj serve
              (setup_url uj (reset_temporary_options cfg)
                (make_url_absolute uj (reset_temporary_options cfg) loc))
              (redirCount + 1)
            ⟨attemptOf cfg :: out.attempts, out.outcome, out.final⟩
termination_by (cfg.redirect_limit + 1 - redirCount).toNat
decreasing_by
  simp only [setup_url, reset_temporary_options] at *
  omega

/-! ### Unfolding equations for the request loop -/

theorem requestRun_eq_error {uj serve cfg redirCount e}
    (h : serve (cfg.url.getD "") = .error e) :
    requestRun uj serve cfg redirCount =
      ⟨[attemptOf cfg], .error (.transport e), reset_temporary_options cfg⟩ := by
  unfold requestRun
  simp [h]

theorem requestRun_eq_done {uj serve cfg redirCount doc}
    (h : serve (cfg.url.getD "") = .ok doc)
    (h2 : find_redirect_url (reset_temporary_options cfg) doc = none) :
    requestRun uj serve cfg redirCount =
      ⟨[attemptOf cfg], .ok doc, reset_temporary_options cfg⟩ := by
  unfold requestRun
  simp [h, h2]

theorem requestRun_eq_toomany {uj serve cfg redirCount doc loc}
    (h : serve (cfg.url.getD "") = .ok doc)
    (h2 : find_redirect_url (reset_temporary_options cfg) doc = some loc)
    (h3 : redirCount + 1 > (reset_temporary_options cfg).redirect_limit) :
    requestRun uj serve cfg redirCount =
      ⟨[attemptOf cfg], .error .tooManyRedirects,
        reset_temporary_options cfg⟩ := by
  unfold requestRun
  simp [h, h2, h3]

theorem requestRun_eq_redirect {uj serve cfg redirCount doc loc}
    (h : serve (cfg.url.getD "") = .ok doc)
    (h2 : find_redirect_url (reset_temporary_options cfg) doc = some loc)
    (h3 : ¬redirCount + 1 > (reset_temporary_options cfg).redirect_limit) :
    requestRun uj serve cfg redirCount =
      ⟨attemptOf cfg ::
          (requestRun uj serve
            (setup_url uj (reset_temporary_options cfg)
              (make_url_absolute uj (reset_temporary_options cfg) loc))
            (redirCount + 1)).attempts,
        (requestRun uj serve
          (setup_url uj (reset_temporary_options cfg)
            (make_url_absolute uj (reset_temporary_options cfg) loc))
          (redirCount + 1)).outcome,
        (requestRun uj serve
          (setup_url uj (reset_temporary_options cfg)
            (make_url_absolute uj (reset_temporary_options cfg) loc))
          (redirCount + 1)).final⟩ := by
  conv_lhs => unfold requestRun
  simp [h, h2, h3]

/-- Every run dispatches a first attempt carrying the initial config. -/
theorem requestRun_attempts_cons (uj serve cfg redirCount) :
    ∃ rest, (requestRun uj serve cfg redirCount).attempts
      = attemptOf cfg :: rest := by
  induction cfg, redirCount using requestRun.induct uj serve with
  | case1 cfg c e h => exact ⟨[], by rw [requestRun_eq_error h]⟩
  | case2 cfg c doc h h2 => exact ⟨[], by rw [requestRun_eq_done h h2]⟩
  | case3 cfg c doc h loc h2 h3 =>
      exact ⟨[], by rw [requestRun_eq_toomany h h2 h3]⟩
  | case4 cfg c doc h loc h2 h3 ih =>
      exact ⟨_, by rw [requestRun_eq_redirect h h2 h3]⟩

/-- The final config of any run has the one-shot options cleared. -/
theorem requestRun_final_cleared (uj serve cfg redirCount) :
    (requestRun uj serve cfg redirCount).final.post = none ∧
    (requestRun uj serve cfg redirCount).final.multipart_post = none ∧
    (requestRun uj serve cfg redirCount).final.method = none := by
  induction cfg, redirCount using requestRun.induct uj serve with
  | case1 cfg c e h => rw [requestRun_eq_error h]; exact ⟨rfl, rfl, rfl⟩
  | case2 cfg c doc h h2 => rw [requestRun_eq_done h h2]; exact ⟨rfl, rfl, rfl⟩
  | case3 cfg c doc h loc h2 h3 =>
      rw [requestRun_eq_toomany h h2 h3]; exact ⟨rfl, rfl, rfl⟩
  | case4 cfg c doc h loc h2 h3 ih =>
      rw [requestRun_eq_redirect h h2 h3]; exact ih

/-- Every attempt after the first is dispatched with the one-shot options
cleared. -/
theorem requestRun_tail_cleared (uj serve cfg redirCount) :
    ∀ a ∈ (requestRun uj serve cfg redirCount).attempts.drop 1,
      a.post = none ∧ a.multipart_post = none ∧ a.method = none := by
  induction cfg, redirCount using requestRun.induct uj serve with
  | case1 cfg c e h => rw [requestRun_eq_error h]; simp
  | case2 cfg c doc h h2 => rw [requestRun_eq_done h h2]; simp
  | case3 cfg c doc h loc h2 h3 => rw [requestRun_eq_toomany h h2 h3]; simp
  | case4 cfg c doc h loc h2 h3 ih =>
      rw [requestRun_eq_redirect h h2 h3]
      intro a ha
      simp only [List.drop_one, List.tail_cons] at ha
      obtain ⟨rest, hrest⟩ := requestRun_attempts_cons uj serve
        (setup_url uj (reset_temporary_options cfg)
          (make_url_absolute uj (reset_temporary_options cfg) loc))
        (c + 1)
      rw [hrest] at ha
      rcases List.mem_cons.mp ha with h0 | hmem
      · subst h0
        exact ⟨rfl, rfl, rfl⟩
      · exact ih a (by rw [hrest]; simpa using hmem)

/-! ### Concrete demo instances used by the witnesses -/

/-- A concrete stand-in for the stdlib `urljoin` collaborator, resolving
the one relative reference the demos use. -/
def ujDemo : String → String → String :=
  fun b u => if u = "/next" then b ++ "next" else u

/-- Demo network: the base url answers 302 with `Location: /next`, every
other url answers 200 with no `Location`. -/
def serveDemo : String → Except Nat RDoc :=
  fun u => if u = "http://a/" then .ok ⟨302, some "/next", 0⟩
           else .ok ⟨200, none, 1⟩

/-- Demo network that always redirects. -/
def serveDemoLoop : String → Except Nat RDoc :=
  fun _ => .ok ⟨302, some "/next", 0⟩

/-- Demo network that always fails with a classified transport error. -/
def serveDemoErr : String → Except Nat RDoc :=
  fun _ => .error 7

/-- Demo session config: a POST with payload aimed at `http://a/`. -/
def cfgDemo : ConfigE :=
  ⟨some "http://a/", some "x=1", none, some "POST", true, 10⟩

/-! ### C1, C2, C6, C10 -/

/-- C10: after a `request()` call that returns a Document successfully,
the one-shot options `post`, `multipart_post` and `method` are all
cleared in the final config, and every followed redirect hop is
dispatched with them already cleared. -/
theorem one_shot_options_cleared_after_success (uj serve cfg redirCount doc)
    (h : (requestRun uj serve cfg redirCount).outcome = .ok doc) :
    ((requestRun uj serve cfg redirCount).final.post = none ∧
      (requestRun uj serve cfg redirCount).final.multipart_post = none ∧
      (requestRun uj serve cfg redirCount).final.method = none) ∧
    ∀ a ∈ (requestRun uj serve cfg redirCount).attempts.drop 1,
      a.post = none ∧ a.multipart_post = none ∧ a.method = none :=
  ⟨requestRun_final_cleared uj serve cfg redirCount,
    requestRun_tail_cleared uj serve cfg redirCount⟩

/-- Witness for C10 at a concrete run with one redirect hop. -/
theorem one_shot_options_cleared_after_success_witness :
    (requestRun ujDemo serveDemo cfgDemo 0).outcome = .ok ⟨200, none, 1⟩ ∧
    ((requestRun ujDemo serveDemo cfgDemo 0).final.post = none ∧
      (requestRun ujDemo serveDemo cfgDemo 0).final.multipart_post = none ∧
      (requestRun ujDemo serveDemo cfgDemo 0).final.method = none) ∧
    ∀ a ∈ (requestRun ujDemo serveDemo cfgDemo 0).attempts.drop 1,
      a.post = none ∧ a.multipart_post = none ∧ a.method = none := by
  have h : (requestRun ujDemo serveDemo cfgDemo 0).outcome
      = .ok ⟨200, none, 1⟩ := by
    rw [requestRun_eq_redirect
      (show serveDemo (cfgDemo.url.getD "") = .ok ⟨302, some "/next", 0⟩
        from rfl)
      (show find_redirect_url (reset_temporary_options cfgDemo)
          ⟨302, some "/next", 0⟩ = some "/next" by decide)
      (by decide)]
    rw [requestRun_eq_done
      (show serveDemo ((setup_url ujDemo (reset_temporary_options cfgDemo)
          (make_url_absolute ujDemo (reset_temporary_options cfgDemo)
            "/next")).url.getD "") = .ok ⟨200, none, 1⟩ from rfl)
      (by decide)]
  exact ⟨h, one_shot_options_cleared_after_success ujDemo serveDemo cfgDemo 0
    ⟨200, none, 1⟩ h⟩

/-- C6: when the transport raises a classified error, the one-shot
options are cleared before the error propagates, and the failing attempt
is the last one (the engine does not retry it). -/
theorem transport_error_clears_one_shot_options (uj serve cfg redirCount e)
    (h : (requestRun uj serve cfg redirCount).outcome
      = .error (.transport e)) :
    ((requestRun uj serve cfg redirCount).final.post = none ∧
      (requestRun uj serve cfg redirCount).final.multipart_post = none ∧
      (requestRun uj serve cfg redirCount).final.method = none) ∧
    ∃ a, (requestRun uj serve cfg redirCount).attempts.getLast? = some a ∧
      serve (a.url.getD "") = .error e := by
  refine ⟨requestRun_final_cleared uj serve cfg redirCount, ?_⟩
  induction cfg, redirCount using requestRun.induct uj serve with
  | case1 cfg c e' he =>
      rw [requestRun_eq_error he] at h ⊢
      simp only [Except.error.injEq, EngErr.transport.injEq] at h
      exact ⟨attemptOf cfg, rfl, h ▸ he⟩
  | case2 cfg c doc he h2 =>
      rw [requestRun_eq_done he h2] at h
      exact absurd h (by simp)
  | case3 cfg c doc he loc h2 h3 =>
      rw [requestRun_eq_toomany he h2 h3] at h
      exact absurd h (by simp)
  | case4 cfg c doc he loc h2 h3 ih =>
      rw [requestRun_eq_redirect he h2 h3] at h ⊢
      obtain ⟨a, ha, hs⟩ := ih h
      obtain ⟨rest, hrest⟩ := requestRun_attempts_cons uj serve
        (setup_url uj (reset_temporary_options cfg)
          (make_url_absolute uj (reset_temporary_options cfg) loc))
        (c + 1)
      refine ⟨a, ?_, hs⟩
      rw [hrest] at ha ⊢
      simpa [List.getLast?_cons_cons] using ha

/-- Witness for C6 at a concrete failing run. -/
theorem transport_error_clears_one_shot_options_witness :
    (requestRun ujDemo serveDemoErr cfgDemo 0).outcome
      = .error (.transport 7) ∧
    ((requestRun ujDemo serveDemoErr cfgDemo 0).final.post = none ∧
      (requestRun ujDemo serveDemoErr cfgDemo 0).final.multipart_post
        = none ∧
      (requestRun ujDemo serveDemoErr cfgDemo 0).final.method = none) ∧
    ∃ a, (requestRun ujDemo serveDemoErr cfgDemo 0).attempts.getLast?
        = some a ∧
      serveDemoErr (a.url.getD "") = .error 7 := by
  have h : (requestRun ujDemo serveDemoErr cfgDemo 0).outcome
      = .error (.transport 7) := by
    rw [requestRun_eq_error
      (show serveDemoErr (cfgDemo.url.getD "") = .error 7 from rfl)]
  exact ⟨h,
    transport_error_clears_one_shot_options ujDemo serveDemoErr cfgDemo 0 7 h⟩

/-- C1: with redirect following enabled and `redirect_limit ≥ 1`, a first
response with a redirect status and a truthy `Location` makes the engine
dispatch a second attempt at the absolute form of the `Location` resolved
against the current request url, and return that second attempt's
Document.  `uj` is the stdlib `urljoin`; the hypothesis `hidem` records
that joining an already-joined (absolute) url is stable, which real
`urljoin` satisfies and which the source relies on since the redirect url
is absolutized both in `request` (line 251) and again in `setup`
(line 175). -/
theorem redirect_followed_returns_target_document
    (uj serve) (cfg : ConfigE) (u0 loc : String) (doc0 doc1 : RDoc)
    (hfl : cfg.follow_location = true) (hlim : 1 ≤ cfg.redirect_limit)
    (hurl : cfg.url = some u0) (hu0 : u0 ≠ "")
    (h0 : serve u0 = .ok doc0)
    (hcode : doc0.code ∈ [301, 302, 303, 307, 308])
    (hloc : doc0.location = some loc) (hl : loc ≠ "")
    (hidem : uj u0 (uj u0 loc) = uj u0 loc)
    (h1 : serve (uj u0 loc) = .ok doc1)
    (hterm : doc1.location = none) :
    (requestRun uj serve cfg 0).outcome = .ok doc1 ∧
    (requestRun uj serve cfg 0).attempts.map Attempt.url
      = [some u0, some (uj u0 loc)] := by
  have hs0 : serve (cfg.url.getD "") = .ok doc0 := by rw [hurl]; exact h0
  have hred : find_redirect_url (reset_temporary_options cfg) doc0
      = some loc := by
    simp [find_redirect_url, reset_temporary_options, hfl, truthy, hloc, hl,
      hcode]
  have hcfg2 : setup_url uj (reset_temporary_options cfg)
      (make_url_absolute uj (reset_temporary_options cfg) loc)
      = ⟨some (uj u0 loc), none, none, none, cfg.follow_location,
          cfg.redirect_limit⟩ := by
    simp [setup_url, make_url_absolute, reset_temporary_options, hurl,
      truthy, hu0, hidem]
  rw [requestRun_eq_redirect hs0 hred (by
    simp only [reset_temporary_options]
    omega)]
  rw [hcfg2]
  have hs1 : serve ((⟨some (uj u0 loc), none, none, none,
      cfg.follow_location, cfg.redirect_limit⟩ : ConfigE).url.getD "")
      = .ok doc1 := by simpa using h1
  rw [requestRun_eq_done hs1 (by simp [find_redirect_url, truthy, hterm])]
  simp [attemptOf, hurl]

/-- Witness for C1 at a concrete two-hop run. -/
theorem redirect_followed_returns_target_document_witness :
    cfgDemo.follow_location = true ∧ 1 ≤ cfgDemo.redirect_limit ∧
    serveDemo "http://a/" = .ok ⟨302, some "/next", 0⟩ ∧
    serveDemo (ujDemo "http://a/" "/next") = .ok ⟨200, none, 1⟩ ∧
    (requestRun ujDemo serveDemo cfgDemo 0).outcome = .ok ⟨200, none, 1⟩ ∧
    (requestRun ujDemo serveDemo cfgDemo 0).attempts.map Attempt.url
      = [some "http://a/", some (ujDemo "http://a/" "/next")] := by
  have h := redirect_followed_returns_target_document ujDemo serveDemo
    cfgDemo "http://a/" "/next" ⟨302, some "/next", 0⟩ ⟨200, none, 1⟩
    rfl (by decide) rfl (by decide) rfl (by decide) rfl (by decide)
    (by decide) rfl rfl
  exact ⟨rfl, by decide, rfl, rfl, h.1, h.2⟩

/-- The always-redirecting run exhausts the limit: starting the loop at
redirect counter `c ≤ redirect_limit`, every hop redirects, so the call
ends with `GrabTooManyRedirectsError` after `redirect_limit + 1 - c`
dispatched attempts. -/
theorem requestRun_loop_exhausts (uj serve) (hserve : ∀ u, ∃ doc,
      serve u = .ok doc ∧ doc.code = 302 ∧
      ∃ l, doc.location = some l ∧ l ≠ "") :
    ∀ cfg redirCount, cfg.follow_location = true →
      redirCount ≤ cfg.redirect_limit →
      (requestRun uj serve cfg redirCount).outcome
          = .error .tooManyRedirects ∧
      ((requestRun uj serve cfg redirCount).attempts.length : Int)
          = cfg.redirect_limit + 1 - redirCount := by
  intro cfg redirCount
  induction cfg, redirCount using requestRun.induct uj serve with
  | case1 cfg c e he =>
      intro _ _
      obtain ⟨doc, hd, -⟩ := hserve (cfg.url.getD "")
      rw [he] at hd
      exact absurd hd (by simp)
  | case2 cfg c doc he h2 =>
      intro hfl _
      obtain ⟨doc2, hd, hc, l, hl, hln⟩ := hserve (cfg.url.getD "")
      rw [he] at hd
      obtain rfl : doc = doc2 := by simpa using hd
      simp [find_redirect_url, reset_temporary_options, hfl, hc, truthy,
        hl, hln] at h2
  | case3 cfg c doc he loc h2 h3 =>
      intro hfl hc
      rw [requestRun_eq_toomany he h2 h3]
      simp only [reset_temporary_options] at h3
      refine ⟨rfl, ?_⟩
      simp only [List.length_cons, List.length_nil]
      omega
  | case4 cfg c doc he loc h2 h3 ih =>
      intro hfl hc
      rw [requestRun_eq_redirect he h2 h3]
      simp only [reset_temporary_options] at h3
      have hfl2 : ConfigE.follow_location (setup_url uj
          (reset_temporary_options cfg)
          (make_url_absolute uj (reset_temporary_options cfg) loc))
          = true := hfl
      have hlim2 : ConfigE.redirect_limit (setup_url uj
          (reset_temporary_options cfg)
          (make_url_absolute uj (reset_temporary_options cfg) loc))
          = cfg.redirect_limit := rfl
      obtain ⟨ho, hn⟩ := ih hfl2 (by rw [hlim2]; omega)
      refine ⟨ho, ?_⟩
      rw [hlim2] at hn
      simp only [List.length_cons]
      push_cast
      omega

/-- C2: with `follow_location` enabled and `redirect_limit = N - 1`,
against a server answering every url with a 302 and a truthy `Location`,
`request()` raises `GrabTooManyRedirectsError` after following exactly
`N - 1` redirect hops, i.e. after `N` dispatched attempts. -/
theorem redirect_limit_exceeded_raises (uj serve) (cfg : ConfigE) (N : Nat)
    (hN : 1 ≤ N) (hfl : cfg.follow_location = true)
    (hlim : cfg.redirect_limit = (N : Int) - 1)
    (hserve : ∀ u, ∃ doc, serve u = .ok doc ∧ doc.code = 302 ∧
      ∃ l, doc.location = some l ∧ l ≠ "") :
    (requestRun uj serve cfg 0).outcome = .error .tooManyRedirects ∧
    (requestRun uj serve cfg 0).attempts.length = N := by
  obtain ⟨ho, hn⟩ := requestRun_loop_exhausts uj serve hserve cfg 0 hfl
    (by omega)
  refine ⟨ho, ?_⟩
  rw [hlim] at hn
  omega

/-- Demo session config with `redirect_limit = 0`. -/
def cfgDemoLimit0 : ConfigE := ⟨some "http://a/", none, none, none, true, 0⟩

/-- Witness for C2 at `N = 1` (`redirect_limit = 0`). -/
theorem redirect_limit_exceeded_raises_witness :
    cfgDemoLimit0.follow_location = true ∧
    cfgDemoLimit0.redirect_limit = (1 : Int) - 1 ∧
    (requestRun ujDemo serveDemoLoop cfgDemoLimit0 0).outcome
      = .error .tooManyRedirects ∧
    (requestRun ujDemo serveDemoLoop cfgDemoLimit0 0).attempts.length
      = 1 := by
  have h := redirect_limit_exceeded_raises ujDemo serveDemoLoop
    cfgDemoLimit0 1 (by decide) rfl (by decide)
    (fun u => ⟨⟨302, some "/next", 0⟩, rfl, rfl, "/next", rfl, by decide⟩)
  exact ⟨rfl, by decide, h.1, h.2⟩

/-! ## Capped chunked body reader

`Urllib3Transport.read_with_timeout` (src/grab/transport.py lines
386-415).  The response stream is a byte list; `read(n)` hands over the
next `min n remaining` bytes.  The per-iteration wall-clock check
`time.time() - op_started > timeout` is an external oracle `timeHit`,
consulted like the source only when `timeout` is truthy (`0` models the
falsy `None`/`0`).  `maxsize = 0` likewise models a falsy
`config_body_maxsize`. -/

/-- The `while True` read loop: accumulate chunks, stop when the server
is exhausted or once `bytes_read` exceeds `maxsize` (the breaking chunk
is still appended), raising `GrabTimeoutError` when the clock check
fires at the bottom of an iteration. -/
def readLoop (chunkSize maxsize timeout : Nat) (timeHit : Nat → Bool)
    (stream : List Nat) (bytesRead iter : Nat) : Except Unit (List Nat) :=
  if h : stream.take chunkSize = [] then
    .ok []
  else if maxsize ≠ 0 ∧ bytesRead + (stream.take chunkSize).length > maxsize
      then
    .ok (stream.take chunkSize)
  else if timeout ≠ 0 ∧ timeHit iter = true then
    .error ()
  else
    (readLoop chunkSize maxsize timeout timeHit (stream.drop chunkSize)
        (bytesRead + (stream.take chunkSize).length) (iter + 1)).map
      (fun rest => stream.take chunkSize ++ rest)
termination_by stream.length
decreasing_by
  rw [List.take_eq_nil_iff] at h
  push_neg at h
  have h1 : 0 < stream.length := List.length_pos.mpr h.2
  have h2 : chunkSize ≠ 0 := h.1
  simp only [List.length_drop]
  omega

/-- Embeds `Urllib3Transport.read_with_timeout`: nothing for `nobody`
requests;
otherwise run the read loop with
`chunk_size = min(10000, maxsize + 1)` when a cap is configured, and
truncate the joined data to `maxsize` at the end. -/
def read_with_timeout (config_nobody : Bool) (maxsize timeout : Nat)
    (timeHit : Nat → Bool) (stream : List Nat) : Except Unit (List Nat) :=
  if config_nobody then .ok []
  else
    match readLoop (if maxsize ≠ 0 then min 10000 (maxsize + 1) else 10000)
        maxsize timeout timeHit stream 0 0 with
    | .ok data => .ok (if maxsize ≠ 0 then data.take maxsize else data)
    | .error e => .error e

/-- With no timeout configured the read loop returns a prefix of the
stream and stops only on exhaustion or after exceeding the cap. -/
theorem readLoop_spec (chunkSize maxsize : Nat) (timeHit)
    (hcs : chunkSize ≠ 0) :
    ∀ stream bytesRead iter, ∃ data,
      readLoop chunkSize maxsize 0 timeHit stream bytesRead iter
        = .ok data ∧
      data = stream.take data.length ∧
      ((maxsize ≠ 0 ∧ bytesRead + data.length > maxsize) ∨
        data.length = stream.length) := by
  intro stream bytesRead iter
  induction stream, bytesRead, iter using readLoop.induct chunkSize maxsize
      0 timeHit with
  | case1 stream br it h =>
      refine ⟨[], ?_, by simp, Or.inr ?_⟩
      · unfold readLoop
        simp [h]
      · rw [List.take_eq_nil_iff] at h
        simp [h.resolve_left hcs]
  | case2 stream br it h h2 =>
      refine ⟨stream.take chunkSize, ?_, ?_, Or.inl ?_⟩
      · unfold readLoop
        simp only [dif_neg h, if_pos h2]
      · rw [List.length_take, List.take_eq_take]
        omega
      · exact h2
  | case3 stream br it h h2 h3 =>
      exact absurd h3 (by simp)
  | case4 stream br it h h2 h3 ih =>
      obtain ⟨rest, hrun, hpre, hdisj⟩ := ih
      refine ⟨stream.take chunkSize ++ rest, ?_, ?_, ?_⟩
      · unfold readLoop
        rw [dif_neg h, if_neg h2, if_neg h3, hrun]
        rfl
      · rcases le_or_lt chunkSize stream.length with hle | hlt
        · rw [List.length_append, List.length_take,
            Nat.min_eq_left hle, List.take_add, ← hpre]
        · have hdrop : stream.drop chunkSize = [] :=
            List.drop_eq_nil_of_le (le_of_lt hlt)
          have hrest : rest = [] := by
            rw [hdrop] at hpre
            simpa using hpre
          subst hrest
          rw [List.append_nil, List.length_take, List.take_eq_take]
          omega
      · rcases hdisj with ⟨hm, hgt⟩ | hlen
        · exact Or.inl ⟨hm, by simp only [List.length_append]; omega⟩
        · refine Or.inr ?_
          rw [List.length_drop] at hlen
          rw [List.length_append, List.length_take]
          omega

/-- C7: with a body cap `K > 0` configured and a server sending more
than `K` bytes, the read stops mid-stream and the body handed to the
Document is exactly the first `K` bytes, with no error raised. -/
theorem body_cap_truncates (K : Nat) (timeHit) (stream : List Nat)
    (hK : K ≠ 0) (hlen : K < stream.length) :
    read_with_timeout false K 0 timeHit stream = .ok (stream.take K) ∧
    (stream.take K).length = K := by
  obtain ⟨data, hrun, hpre, hdisj⟩ := readLoop_spec (min 10000 (K + 1)) K
    timeHit (by omega) stream 0 0
  have hKle : K ≤ data.length := by
    rcases hdisj with ⟨-, hgt⟩ | heq <;> omega
  constructor
  · unfold read_with_timeout
    rw [if_neg (by simp), if_pos hK, hrun]
    have htk : List.take K data = List.take K stream := by
      rw [hpre, List.take_take, Nat.min_eq_left hKle]
    simp [if_pos hK, htk]
  · rw [List.length_take]
    omega

/-- Witness for C7 at `K = 2` against a three-byte body. -/
theorem body_cap_truncates_witness :
    (2 : Nat) ≠ 0 ∧ 2 < [10, 20, 30].length ∧
    read_with_timeout false 2 0 (fun _ => false) [10, 20, 30]
      = .ok [10, 20] := by
  have h := body_cap_truncates 2 (fun _ => false) [10, 20, 30]
    (by decide) (by decide)
  exact ⟨by decide, by decide, h.1⟩

/-! ## Hook pipeline client (src/grab/client.py)

`HttpClient.request` (lines 53-79) loops: dispatch the request, build the
Document in `process_request_result` (lines 81-86) — which invokes every
`response:post` hook on that Document — then evaluate the `retry` hooks;
the first hook returning something other than `(None, None)` supplies a
replacement `(retry, request)` pair and the loop continues, otherwise the
Document is returned.  Requests and retry state are modelled by naturals
(`Retry.state` is an abstract mutable mapping owned by the hooks), the
transport by a function from request to Document, and the hooks by
function lists.  `request:pre` hooks and cookie collection do not affect
the `response:post`/`retry` ordering and are elided.  The loop has no
bound of its own (spec section 4.5: bounded by hook state, not the
engine), so the model takes a fuel for the iterations actually run. -/

structure CDoc where
  code : Nat
  tag : Nat
deriving DecidableEq, Repr

/-- The lazy `any(...)` with walrus capture over the `retry` hooks: the
value of the first hook signalling something other than `(None, None)`. -/
def firstRetrySignal (hooks : List (Nat → Nat → CDoc → Option (Nat × Nat)))
    (retry req : Nat) (doc : CDoc) : Option (Nat × Nat) :=
  match hooks with
  | [] => none
  | f :: rest =>
      match f retry req doc with
      | some r => some r
      | none => firstRetrySignal rest retry req doc

/-- Embeds `HttpClient.request`: returns the ordered list of Documents on
which
the `response:post` hooks were invoked, and the Document returned to the
caller (`none` when the fuel ends before a terminal Document). -/
def clientRequest (serve : Nat → CDoc)
    (retryHooks : List (Nat → Nat → CDoc → Option (Nat × Nat))) :
    Nat → Nat → Nat → List CDoc × Option CDoc
  | 0, _, _ => ([], none)
  | fuel + 1, retry, req =>
      match firstRetrySignal retryHooks retry req (serve req) with
      | some (retry2, req2) =>
          let out := clientRequest serve retryHooks fuel retry2 req2
          (serve req :: out.1, out.2)
      | none => ([serve req], some (serve req))

/-- Demo transport for the client pipeline. -/
def serveClientDemo : Nat → CDoc :=
  fun req => if req = 0 then ⟨500, 0⟩ else ⟨200, 1⟩

/-- Demo retry hook: retry the request whose Document carries tag 0 once,
switching to request 1. -/
def retryHookDemo : Nat → Nat → CDoc → Option (Nat × Nat) :=
  fun retry _ doc => if doc.tag = 0 then some (retry + 1, 1) else none

/-- C5 counterexample: in the run below the first attempt's Document is
signalled for retry by the retry hook, yet the `response:post` hooks have
already been invoked on it inside `process_request_result` — the hooks do
not run only on the terminal Document. -/
theorem response_post_runs_on_retried_document :
    (clientRequest serveClientDemo [retryHookDemo] 2 0 0).1
      = [⟨500, 0⟩, ⟨200, 1⟩] ∧
    (clientRequest serveClientDemo [retryHookDemo] 2 0 0).2
      = some ⟨200, 1⟩ ∧
    firstRetrySignal [retryHookDemo] 0 0 ⟨500, 0⟩ = some (1, 1) ∧
    (⟨500, 0⟩ : CDoc) ≠ ⟨200, 1⟩ := by
  decide

/-- C5 amended: the `response:post` hooks run once per attempt, on every
attempt's Document — including Documents a retry hook subsequently
signals retry for — and the terminal Document returned to the caller is
the last Document they ran on. -/
theorem response_post_runs_every_attempt (serve hooks fuel retry req doc)
    (h : (clientRequest serve hooks fuel retry req).2 = some doc) :
    (clientRequest serve hooks fuel retry req).1.getLast? = some doc := by
  induction fuel generalizing retry req with
  | zero => simp [clientRequest] at h
  | succ n ih =>
      rw [clientRequest] at h ⊢
      cases hsig : firstRetrySignal hooks retry req (serve req) with
      | none =>
          rw [hsig] at h
          simp at h ⊢
          exact h
      | some r =>
          obtain ⟨retry2, req2⟩ := r
          rw [hsig] at h
          simp only at h ⊢
          have := ih retry2 req2 h
          rw [List.getLast?_cons]
          simp only [this]
          cases hl : (clientRequest serve hooks n retry2 req2).1 with
          | nil => rw [hl] at this; simp at this
          | cons a l => simp

/-- Witness for the amended C5 at the concrete retried run. -/
theorem response_post_runs_every_attempt_witness :
    (clientRequest serveClientDemo [retryHookDemo] 2 0 0).2
      = some ⟨200, 1⟩ ∧
    (clientRequest serveClientDemo [retryHookDemo] 2 0 0).1.getLast?
      = some ⟨200, 1⟩ := by
  have h : (clientRequest serveClientDemo [retryHookDemo] 2 0 0).2
      = some ⟨200, 1⟩ := by decide
  exact ⟨h, response_post_runs_every_attempt serveClientDemo
    [retryHookDemo] 2 0 0 ⟨200, 1⟩ h⟩

/-! ## Config copy discipline over an explicit object heap

`copy_config` (src/grab/base.py lines 31-36) shallow-copies the config
dict and then `copy.copy`-copies the values of the four
`MUTABLE_CONFIG_KEYS` (`post`, `multipart_post`, `headers`, `cookies`).
To make Python aliasing observable, those option values are addresses
into a heap of dict objects (`outers`), whose entries hold either
immutable strings or references into a heap of list objects (`inners`).
`copy.copy` of a dict allocates a fresh dict object with the same
entries, sharing any nested objects; `copy.copy(None)` is `None`.
Scalar config values (represented by `timeout`) are shared by value. -/

/-- An entry of a config dict object: an immutable string or a reference
to a mutable list object. -/
inductive Inner where
  | str (v : String)
  | ref (a : Nat)
deriving DecidableEq, Repr

/-- The Python object heap: dict objects and list objects, addressed by
their index. -/
structure Heap where
  outers : List (List (String × Inner))
  inners : List (List String)
deriving Repr

/-- Model of `copy.copy` applied to a `None`-or-dict config value:
`None` stays
`None`; a dict is copied one level, the fresh object receiving the same
entry list (nested references shared). -/
def shallowCopyVal (h : Heap) : Option Nat → Heap × Option Nat
  | none => (h, none)
  | some a =>
      ({ h with outers := h.outers ++ [h.outers.getD a []] },
        some h.outers.length)

/-- The mutable-keyed slice of the grab config (`MUTABLE_CONFIG_KEYS`)
plus a representative scalar option. -/
structure GrabCfg where
  post : Option Nat
  multipart_post : Option Nat
  headers : Option Nat
  cookies : Option Nat
  timeout : Option Int
deriving DecidableEq, Repr

/-- Embeds `copy_config` (src/grab/base.py lines 31-36): `copy(config)`
is the
by-value copy of the record, then each key of `MUTABLE_CONFIG_KEYS` is
re-bound to a `copy.copy` of its value, in the list's order. -/
def copy_config (h : Heap) (cfg : GrabCfg) : Heap × GrabCfg :=
  let s1 := shallowCopyVal h cfg.post
  let s2 := shallowCopyVal s1.1 cfg.multipart_post
  let s3 := shallowCopyVal s2.1 cfg.headers
  let s4 := shallowCopyVal s3.1 cfg.cookies
  (s4.1, ⟨s1.2, s2.2, s3.2, s4.2, cfg.timeout⟩)

/-- A materialized config value as a caller observes it: entries of the
option's dict, with nested list objects read back from the heap. -/
inductive MVal where
  | str (v : String)
  | lst (xs : List String)
deriving DecidableEq, Repr

def matEntry (h : Heap) : Inner → Option MVal
  | .str v => some (.str v)
  | .ref a => (h.inners[a]?).map MVal.lst

/-- Observation of a `None`-or-dict config value under a heap. -/
def matVal (h : Heap) (v : Option Nat) :
    Option (List (String × Option MVal)) :=
  v.bind fun a =>
    (h.outers[a]?).map fun es => es.map fun kv => (kv.1, matEntry h kv.2)

/-- Python `d[k] = i` on a dict object entry list. -/
def dictSetKey (es : List (String × Inner)) (k : String) (i : Inner) :
    List (String × Inner) :=
  if es.any (fun kv => kv.1 == k) then
    es.map fun kv => if kv.1 == k then (k, i) else kv
  else
    es ++ [(k, i)]

/-- Mutation of the dict object at address `a`: top-level key
assignment. -/
def outerSet (h : Heap) (a : Nat) (k : String) (i : Inner) : Heap :=
  { h with outers := h.outers.set a (dictSetKey (h.outers.getD a []) k i) }

/-- Mutation of the list object at address `a`: `lst.append(s)`. -/
def innerAppend (h : Heap) (a : Nat) (s : String) : Heap :=
  { h with inners := h.inners.set a (h.inners.getD a [] ++ [s]) }

/-- The four mutable config keys. -/
inductive MKey where
  | post
  | multipart_post
  | headers
  | cookies
deriving DecidableEq, Repr

def getKey (cfg : GrabCfg) : MKey → Option Nat
  | .post => cfg.post
  | .multipart_post => cfg.multipart_post
  | .headers => cfg.headers
  | .cookies => cfg.cookies

/-- Well-formedness: every mutable option value of the config is a live
dict address. -/
def cfgWF (h : Heap) (cfg : GrabCfg) : Prop :=
  ∀ k a, getKey cfg k = some a → a < h.outers.length

/-- Heap extension: dict objects only appended, list objects untouched. -/
def HExt (h h2 : Heap) : Prop :=
  (∃ t, h2.outers = h.outers ++ t) ∧ h2.inners = h.inners

theorem HExt_refl (h : Heap) : HExt h h :=
  ⟨⟨[], by simp⟩, rfl⟩

theorem HExt_trans {h1 h2 h3 : Heap} (a : HExt h1 h2) (b : HExt h2 h3) :
    HExt h1 h3 := by
  obtain ⟨⟨t1, ht1⟩, hi1⟩ := a
  obtain ⟨⟨t2, ht2⟩, hi2⟩ := b
  exact ⟨⟨t1 ++ t2, by rw [ht2, ht1, List.append_assoc]⟩, hi2.trans hi1⟩

theorem HExt_length {h h2 : Heap} (e : HExt h h2) :
    h.outers.length ≤ h2.outers.length := by
  obtain ⟨⟨t, ht⟩, -⟩ := e
  simp [ht]

theorem shallowCopyVal_ext (h : Heap) (v : Option Nat) :
    HExt h (shallowCopyVal h v).1 := by
  cases v with
  | none => exact HExt_refl h
  | some a => exact ⟨⟨[h.outers.getD a []], rfl⟩, rfl⟩

theorem shallowCopyVal_fresh (h : Heap) (v : Option Nat) (a : Nat)
    (h2 : (shallowCopyVal h v).2 = some a) :
    h.outers.length ≤ a ∧ a < (shallowCopyVal h v).1.outers.length := by
  cases v with
  | none => simp [shallowCopyVal] at h2
  | some b =>
      simp only [shallowCopyVal, Option.some.injEq] at h2
      subst h2
      simp [shallowCopyVal]

theorem shallowCopyVal_none (h : Heap) :
    shallowCopyVal h none = (h, none) := rfl

theorem matEntry_congr {h h2 : Heap} (hi : h2.inners = h.inners) :
    matEntry h2 = matEntry h := by
  funext i
  cases i with
  | str v => rfl
  | ref a => simp [matEntry, hi]

theorem matVal_ext {h h2 : Heap} (e : HExt h h2) (v : Option Nat)
    (hv : ∀ a, v = some a → a < h.outers.length) :
    matVal h2 v = matVal h v := by
  cases v with
  | none => rfl
  | some a =>
      obtain ⟨⟨t, ht⟩, hi⟩ := e
      simp only [matVal, Option.some_bind]
      rw [ht, List.getElem?_append_left (hv a rfl), matEntry_congr hi]

/-- The shallow copy of a live value observes the same as the
original. -/
theorem shallowCopyVal_mat (h : Heap) (v : Option Nat)
    (hv : ∀ a, v = some a → a < h.outers.length) :
    matVal (shallowCopyVal h v).1 (shallowCopyVal h v).2 = matVal h v := by
  cases v with
  | none => rfl
  | some a =>
      have ha : a < h.outers.length := hv a rfl
      simp only [shallowCopyVal, matVal, Option.some_bind]
      rw [List.getElem?_concat_length,
        show matEntry
            { outers := h.outers ++ [h.outers.getD a []],
              inners := h.inners } = matEntry h from matEntry_congr rfl]
      rw [List.getD_eq_getElem?_getD, List.getElem?_eq_getElem ha]
      simp

/-- A value copied at an intermediate heap observes, under any later
extension, the same as the source value under the source heap. -/
theorem copied_mat (h0 h1 hrest : Heap) (v : Option Nat)
    (hv : ∀ a, v = some a → a < h0.outers.length) (e : HExt h0 h1)
    (e2 : HExt (shallowCopyVal h1 v).1 hrest) :
    matVal hrest (shallowCopyVal h1 v).2 = matVal h0 v := by
  rw [matVal_ext e2 _ (fun a ha => (shallowCopyVal_fresh h1 v a ha).2),
    shallowCopyVal_mat h1 v
      (fun a ha => lt_of_lt_of_le (hv a ha) (HExt_length e)),
    matVal_ext e _ hv]

/-- A value copied at an intermediate heap lands at a fresh address:
at or above the source heap's bound, below any later extension's. -/
theorem copied_bound (h0 h1 hrest : Heap) (v : Option Nat)
    (e : HExt h0 h1) (e2 : HExt (shallowCopyVal h1 v).1 hrest) (a : Nat)
    (ha : (shallowCopyVal h1 v).2 = some a) :
    h0.outers.length ≤ a ∧ a < hrest.outers.length :=
  have f := shallowCopyVal_fresh h1 v a ha
  ⟨le_trans (HExt_length e) f.1, lt_of_lt_of_le f.2 (HExt_length e2)⟩

/-- The copy only extends the heap, shares scalars by value,
observes equal to the source on every mutable key, and binds every
copied mutable key to a fresh dict address. -/
theorem copy_config_spec (h : Heap) (cfg : GrabCfg) (hwf : cfgWF h cfg) :
    HExt h (copy_config h cfg).1 ∧
    (copy_config h cfg).2.timeout = cfg.timeout ∧
    (∀ k, matVal (copy_config h cfg).1 (getKey (copy_config h cfg).2 k)
        = matVal h (getKey cfg k)) ∧
    (∀ k a, getKey (copy_config h cfg).2 k = some a →
        h.outers.length ≤ a ∧ a < (copy_config h cfg).1.outers.length) := by
  simp only [copy_config]
  refine ⟨?_, trivial, ?_, ?_⟩
  · exact HExt_trans (shallowCopyVal_ext _ _) (HExt_trans
      (shallowCopyVal_ext _ _) (HExt_trans (shallowCopyVal_ext _ _)
        (shallowCopyVal_ext _ _)))
  · intro k
    cases k with
    | post =>
        exact copied_mat h h _ cfg.post (fun a ha => hwf .post a ha)
          (HExt_refl h)
          (HExt_trans (shallowCopyVal_ext _ _) (HExt_trans
            (shallowCopyVal_ext _ _) (shallowCopyVal_ext _ _)))
    | multipart_post =>
        exact copied_mat h _ _ cfg.multipart_post
          (fun a ha => hwf .multipart_post a ha)
          (shallowCopyVal_ext _ _)
          (HExt_trans (shallowCopyVal_ext _ _) (shallowCopyVal_ext _ _))
    | headers =>
        exact copied_mat h _ _ cfg.headers
          (fun a ha => hwf .headers a ha)
          (HExt_trans (shallowCopyVal_ext _ _) (shallowCopyVal_ext _ _))
          (shallowCopyVal_ext _ _)
    | cookies =>
        exact copied_mat h _ _ cfg.cookies
          (fun a ha => hwf .cookies a ha)
          (HExt_trans (shallowCopyVal_ext _ _) (HExt_trans
            (shallowCopyVal_ext _ _) (shallowCopyVal_ext _ _)))
          (HExt_refl _)
  · intro k a ha
    cases k with
    | post =>
        exact copied_bound h h _ cfg.post (HExt_refl h)
          (HExt_trans (shallowCopyVal_ext _ _) (HExt_trans
            (shallowCopyVal_ext _ _) (shallowCopyVal_ext _ _))) a ha
    | multipart_post =>
        exact copied_bound h _ _ cfg.multipart_post (shallowCopyVal_ext _ _)
          (HExt_trans (shallowCopyVal_ext _ _) (shallowCopyVal_ext _ _))
          a ha
    | headers =>
        exact copied_bound h _ _ cfg.headers
          (HExt_trans (shallowCopyVal_ext _ _) (shallowCopyVal_ext _ _))
          (shallowCopyVal_ext _ _) a ha
    | cookies =>
        exact copied_bound h _ _ cfg.cookies
          (HExt_trans (shallowCopyVal_ext _ _) (HExt_trans
            (shallowCopyVal_ext _ _) (shallowCopyVal_ext _ _)))
          (HExt_refl _) a ha

/-- Observation is unchanged between heaps agreeing on the list store and
on the dict objects the value can reach. -/
theorem matVal_eq_of (h h2 : Heap) (v : Option Nat)
    (hi : h2.inners = h.inners)
    (ho : ∀ b, v = some b → h2.outers[b]? = h.outers[b]?) :
    matVal h2 v = matVal h v := by
  cases v with
  | none => rfl
  | some b =>
      simp only [matVal, Option.some_bind]
      rw [ho b rfl, matEntry_congr hi]

/-- Demo heap: one dict object with single key a whose entry references
the list object `["x"]`. -/
def heapDemo : Heap := ⟨[[("a", Inner.ref 0)]], [["x"]]⟩

/-- Demo config: `post` bound to the dict object at address 0, the other
mutable keys `None`, a scalar present. -/
def cfgHeapDemo : GrabCfg := ⟨some 0, none, none, none, some 30⟩

/-- C3 counterexample: `copy_config` copies each mutable value with
`copy.copy`, one level only.  Cloning `cfgHeapDemo` and then mutating the
list nested inside the clone's `post` value (the model of
`clone.config["post"]["a"].append("y")`, an `innerAppend` through the
shared reference) changes the original session's observed `post` value:
the mutable option values are not deep-copied. -/
theorem clone_shares_nested_mutables :
    (copy_config heapDemo cfgHeapDemo).2.post = some 1 ∧
    matVal (copy_config heapDemo cfgHeapDemo).1
        ((copy_config heapDemo cfgHeapDemo).2.post)
      = some [("a", some (MVal.lst ["x"]))] ∧
    matVal (copy_config heapDemo cfgHeapDemo).1 cfgHeapDemo.post
      = some [("a", some (MVal.lst ["x"]))] ∧
    matVal (innerAppend (copy_config heapDemo cfgHeapDemo).1 0 "y")
        cfgHeapDemo.post
      = some [("a", some (MVal.lst ["x", "y"]))] ∧
    matVal (innerAppend (copy_config heapDemo cfgHeapDemo).1 0 "y")
        cfgHeapDemo.post
      ≠ matVal (copy_config heapDemo cfgHeapDemo).1 cfgHeapDemo.post := by
  refine ⟨rfl, rfl, rfl, rfl, ?_⟩
  decide

/-- C3 amended: `clone` via `copy_config` copies every mutable-typed
option value one level deep: the clone's option values live at fresh dict
addresses, so any top-level mutation of such a value through the clone
(key assignment on the option's own dict) leaves every corresponding
observed value of the original config unchanged; scalar values are
shared by value.  (Deeper structures nested inside an option value remain
shared — see the counterexample.) -/
theorem clone_top_level_mutation_leaves_original (h : Heap) (cfg : GrabCfg)
    (hwf : cfgWF h cfg) (k1 k2 : MKey) (a : Nat) (key : String) (i : Inner)
    (ha : getKey (copy_config h cfg).2 k1 = some a) :
    matVal (outerSet (copy_config h cfg).1 a key i) (getKey cfg k2)
      = matVal (copy_config h cfg).1 (getKey cfg k2) ∧
    (copy_config h cfg).2.timeout = cfg.timeout := by
  obtain ⟨e, htime, -, hfresh⟩ := copy_config_spec h cfg hwf
  have hb := hfresh k1 a ha
  refine ⟨matVal_eq_of _ _ _ rfl ?_, htime⟩
  intro b hbk
  have hblt : b < h.outers.length := hwf k2 b hbk
  exact List.getElem?_set_ne (by omega)

/-- Witness for the amended C3: mutating the clone's `post` dict at the
top level leaves the original's observed `post` unchanged. -/
theorem clone_top_level_mutation_leaves_original_witness :
    getKey (copy_config heapDemo cfgHeapDemo).2 MKey.post = some 1 ∧
    matVal (outerSet (copy_config heapDemo cfgHeapDemo).1 1 "b"
        (Inner.str "z")) (getKey cfgHeapDemo MKey.post)
      = matVal (copy_config heapDemo cfgHeapDemo).1
          (getKey cfgHeapDemo MKey.post) ∧
    (copy_config heapDemo cfgHeapDemo).2.timeout = cfgHeapDemo.timeout := by
  have hwf : cfgWF heapDemo cfgHeapDemo := by
    intro k a hk
    cases k with
    | post =>
        simp [getKey, cfgHeapDemo] at hk
        simp [heapDemo, ← hk]
    | multipart_post => simp [getKey, cfgHeapDemo] at hk
    | headers => simp [getKey, cfgHeapDemo] at hk
    | cookies => simp [getKey, cfgHeapDemo] at hk
  have h := clone_top_level_mutation_leaves_original heapDemo cfgHeapDemo
    hwf MKey.post MKey.post 1 "b" (Inner.str "z") rfl
  exact ⟨rfl, h.1, h.2⟩

/-! ## Session dump and load (src/grab/base.py lines 152-166)

`dump_config` returns `copy_config(self.config)` with
a state entry holding `cookiejar_cookies`, the listed jar;
`load_config` sets `self.config = copy_config(config)` and rebuilds the
cookie manager with `CookieManager.from_cookie_list` when the
`cookiejar_cookies` key is present (it always is in a dump).  The cookie
manager itself (grab/cookie.py) is not among the sources. -/

/-- A cookie record as serialized under `state.cookiejar_cookies` (spec
section 6: name, value, domain, path, expiry, secure flag). -/
structure Cook where
  name : String
  value : String
  domain : String
  path : String
  expires : Option Nat
  secure : Bool
deriving DecidableEq, Repr

/-- A session: its config and its cookie manager's jar.  Modelled from
the spec: the jar exports its cookies as a flat ordered list. -/
structure GrabSession where
  cfg : GrabCfg
  cookiejar : List Cook
deriving Repr

/-- The structured record produced by `dump_config`: the copied config
options plus the `state.cookiejar_cookies` snapshot. -/
structure DumpedConfig where
  cfg : GrabCfg
  state_cookiejar_cookies : List Cook
deriving Repr

/-- Modelled from the spec: `CookieManager.from_cookie_list`
(grab/cookie.py, not among the sources) rebuilds a jar holding exactly
the given cookie records in order — the serialization "must round-trip
exactly" (spec section 6). -/
def from_cookie_list (l : List Cook) : List Cook := l

/-- Embeds `Grab.dump_config` (src/grab/base.py lines 152-158). -/
def dump_config (h : Heap) (s : GrabSession) : Heap × DumpedConfig :=
  let p := copy_config h s.cfg
  (p.1, ⟨p.2, s.cookiejar⟩)

/-- Embeds `Grab.load_config` (src/grab/base.py lines 160-166). -/
def load_config (h : Heap) (conf : DumpedConfig) : Heap × GrabSession :=
  let p := copy_config h conf.cfg
  (p.1, ⟨p.2, from_cookie_list conf.state_cookiejar_cookies⟩)

/-- Runs `dump_config` on one session, then `load_config` of the dump
(the hand-off/resume path). -/
def dump_load (h : Heap) (s : GrabSession) : Heap × GrabSession :=
  load_config (dump_config h s).1 (dump_config h s).2

/-- C4: `dump_config` followed by `load_config` yields a session
observationally equal to the source: every mutable option observes the
same value, scalar options are equal, and the cookie records under
`state.cookiejar_cookies` survive with their name/domain/value triples
and their order intact. -/
theorem dump_then_load_round_trip (h : Heap) (s : GrabSession)
    (hwf : cfgWF h s.cfg) :
    (∀ k, matVal (dump_load h s).1 (getKey (dump_load h s).2.cfg k)
        = matVal (dump_load h s).1 (getKey s.cfg k)) ∧
    (dump_load h s).2.cfg.timeout = s.cfg.timeout ∧
    (dump_load h s).2.cookiejar = s.cookiejar ∧
    ((dump_load h s).2.cookiejar.map fun c => (c.name, c.domain, c.value))
      = s.cookiejar.map fun c => (c.name, c.domain, c.value) := by
  obtain ⟨e1, ht1, hm1, hf1⟩ := copy_config_spec h s.cfg hwf
  have hwf1 : cfgWF (copy_config h s.cfg).1 (copy_config h s.cfg).2 :=
    fun k a ha => (hf1 k a ha).2
  obtain ⟨e2, ht2, hm2, hf2⟩ := copy_config_spec (copy_config h s.cfg).1
    (copy_config h s.cfg).2 hwf1
  simp only [dump_load, dump_config, load_config, from_cookie_list]
  refine ⟨?_, ht2.trans ht1, trivial, trivial⟩
  intro k
  rw [hm2 k, hm1 k,
    matVal_ext (HExt_trans e1 e2) _ (fun a ha => hwf k a ha)]

/-- Demo session: the demo config plus two cookie records. -/
def sessionDemo : GrabSession :=
  ⟨cfgHeapDemo, [⟨"sid", "42", "example.com", "/", some 100, false⟩,
    ⟨"b", "2", "a.org", "/", none, true⟩]⟩

/-- Witness for C4 at a concrete session with two cookies. -/
theorem dump_then_load_round_trip_witness :
    (∀ k, matVal (dump_load heapDemo sessionDemo).1
        (getKey (dump_load heapDemo sessionDemo).2.cfg k)
      = matVal (dump_load heapDemo sessionDemo).1 (getKey cfgHeapDemo k)) ∧
    (dump_load heapDemo sessionDemo).2.cookiejar
      = [⟨"sid", "42", "example.com", "/", some 100, false⟩,
          ⟨"b", "2", "a.org", "/", none, true⟩] := by
  have hwf : cfgWF heapDemo cfgHeapDemo := by
    intro k a hk
    cases k with
    | post =>
        simp [getKey, cfgHeapDemo] at hk
        simp [heapDemo, ← hk]
    | multipart_post => simp [getKey, cfgHeapDemo] at hk
    | headers => simp [getKey, cfgHeapDemo] at hk
    | cookies => simp [getKey, cfgHeapDemo] at hk
  have h := dump_then_load_round_trip heapDemo sessionDemo hwf
  exact ⟨h.1, h.2.2.1⟩

/-! ## Option key validation in `Grab.setup`
(src/grab/base.py lines 168-176)

`setup` first walks every supplied keyword and raises
`GrabMisuseError("Unknown option: …")` on the first key not among the
config's keys; only after the whole walk succeeds does it absolutize a
relative `url` override and apply `self.config.update(kwargs)`.  The
config dict is an association list in insertion order; values are a
small sum covering the option value shapes used by `default_config`. -/

inductive CVal where
  | none
  | str (s : String)
  | int (i : Int)
  | bool (b : Bool)
  | emptyDict
deriving DecidableEq, Repr

/-- Python `d[k]` lookup (keys are unique in a dict, so the first match
is the binding). -/
def dictGet : List (String × CVal) → String → Option CVal
  | [], _ => Option.none
  | kv :: rest, k => if kv.1 == k then some kv.2 else dictGet rest k

/-- Python `d[k] = v`: replace the binding in place when the key exists,
append otherwise. -/
def dictSet : List (String × CVal) → String → CVal →
    List (String × CVal)
  | [], k, v => [(k, v)]
  | kv :: rest, k, v =>
      if kv.1 == k then (k, v) :: rest else kv :: dictSet rest k v

/-- Python `d.update(kw)`. -/
def dictUpdate (m : List (String × CVal)) (kw : List (String × CVal)) :
    List (String × CVal) :=
  kw.foldl (fun acc kv => dictSet acc kv.1 kv.2) m

/-- Truthiness of `self.config.get("url")`. -/
def cvalTruthy : Option CVal → Bool
  | some (.str s) => s != ""
  | some (.int i) => i != 0
  | some (.bool b) => b
  | some .none => false
  | some .emptyDict => false
  | Option.none => false

/-- The `url` branch of `make_url_absolute` applied to an override value
inside `setup` (join only applies to a string override against a truthy
string base). -/
def absolutizeVal (uj : String → String → String) (base : Option CVal)
    (v : CVal) : CVal :=
  match v with
  | .str u =>
      match base with
      | some (.str b) => if b != "" then .str (uj b u) else .str u
      | _ => .str u
  | w => w

/-- Embeds `Grab.setup` as a state transition: the resulting config dict
and the
raised error key, if any.  The validation loop walks `kwargs` in order
and fails on the first unknown key, leaving the config untouched;
otherwise the (url-absolutized) overrides are applied with
`dict.update`. -/
def setupRun (uj : String → String → String) (cfg : List (String × CVal))
    (kwargs : List (String × CVal)) :
    List (String × CVal) × Option String :=
  match kwargs.find? (fun kv => !(cfg.map Prod.fst).contains kv.1) with
  | some kv => (cfg, some kv.1)
  | Option.none =>
      let kwargs2 :=
        if (kwargs.map Prod.fst).contains "url"
            && cvalTruthy (dictGet cfg "url") then
          dictSet kwargs "url"
            (absolutizeVal uj (dictGet cfg "url")
              ((dictGet kwargs "url").getD CVal.none))
        else kwargs
      (dictUpdate cfg kwargs2, Option.none)

/-- Embeds `default_config` (src/grab/base.py lines 39-63) as a config
dict. -/
def default_config : List (String × CVal) :=
  [("method", CVal.none), ("url", CVal.none), ("proxy", CVal.none),
    ("proxy_type", CVal.none), ("proxy_userpwd", CVal.none),
    ("headers", CVal.none), ("cookies", CVal.none),
    ("timeout", CVal.none), ("encoding", CVal.none),
    ("post", CVal.none), ("multipart_post", CVal.none),
    ("redirect_limit", CVal.int 10), ("follow_location", CVal.bool true),
    ("document_type", CVal.str "html"), ("reuse_cookies", CVal.bool true),
    ("common_headers", CVal.emptyDict),
    ("proxy_auto_change", CVal.bool true), ("state", CVal.emptyDict)]

theorem dictGet_dictSet_self (m : List (String × CVal)) (k : String)
    (v : CVal) : dictGet (dictSet m k v) k = some v := by
  induction m with
  | nil => simp [dictSet, dictGet]
  | cons kv rest ih =>
      by_cases hk : kv.1 = k
      · simp [dictSet, dictGet, hk]
      · simp [dictSet, dictGet, hk, ih]

theorem dictGet_dictSet_other (m : List (String × CVal)) (k k2 : String)
    (v : CVal) (hne : k2 ≠ k) :
    dictGet (dictSet m k v) k2 = dictGet m k2 := by
  induction m with
  | nil => simp [dictSet, dictGet, Ne.symm hne]
  | cons kv rest ih =>
      by_cases hk : kv.1 = k
      · subst hk
        simp [dictSet, dictGet, Ne.symm hne]
      · by_cases hk2 : kv.1 = k2
        · simp [dictSet, dictGet, hk, hk2, hne]
        · simp [dictSet, dictGet, hk, hk2, ih]

/-- Bindings applied by `dict.update`: the last value bound to a key in
the
update list wins; untouched keys keep their binding. -/
theorem dictGet_dictUpdate (kw : List (String × CVal)) :
    ∀ (m : List (String × CVal)) (k : String),
      dictGet (dictUpdate m kw) k
        = match kw.reverse.find? (fun kv => kv.1 == k) with
          | some kv => some kv.2
          | Option.none => dictGet m k := by
  induction kw with
  | nil => intro m k; simp [dictUpdate]
  | cons kv rest ih =>
      intro m k
      have step : dictUpdate m (kv :: rest)
          = dictUpdate (dictSet m kv.1 kv.2) rest := rfl
      rw [step, ih]
      rw [List.reverse_cons, List.find?_append]
      cases hfind : rest.reverse.find? (fun kv => kv.1 == k) with
      | some kv2 => simp
      | none =>
          simp only [Option.none_orElse]
          by_cases hk : kv.1 = k
          · subst hk
            simp [dictGet_dictSet_self]
          · have hb : (kv.1 == k) = false := by simp [hk]
            simp [hb, dictGet_dictSet_other m kv.1 k kv.2 (Ne.symm hk)]

theorem dictGet_eq_find? (m : List (String × CVal)) (k : String) :
    dictGet m k = (m.find? (fun kv => kv.1 == k)).map Prod.snd := by
  induction m with
  | nil => rfl
  | cons kv rest ih =>
      by_cases hk : kv.1 = k
      · simp [dictGet, List.find?_cons, hk]
      · have hb : (kv.1 == k) = false := by simp [hk]
        simp [dictGet, List.find?_cons, hb, ih]

theorem dictGet_some_mem {m : List (String × CVal)} {k : String}
    {v : CVal} (h : dictGet m k = some v) : k ∈ m.map Prod.fst := by
  rw [dictGet_eq_find?] at h
  obtain ⟨kv, hfind, -⟩ := Option.map_eq_some'.mp h
  have hp := List.find?_some hfind
  have hmem := List.mem_of_find?_eq_some hfind
  simp only [beq_iff_eq] at hp
  rw [← hp]
  exact List.mem_map_of_mem Prod.fst hmem

theorem mem_dictGet_isSome {m : List (String × CVal)} {k : String}
    (h : k ∈ m.map Prod.fst) : (dictGet m k).isSome := by
  induction m with
  | nil => simp at h
  | cons kv rest ih =>
      by_cases hk : kv.1 = k
      · simp [dictGet, hk]
      · have hb : (kv.1 == k) = false := by simp [hk]
        simp only [List.map_cons, List.mem_cons] at h
        rcases h with h | h
        · exact absurd h.symm hk
        · simp only [dictGet, hb, Bool.false_eq_true, if_neg,
            not_false_eq_true]
          exact ih h

theorem dictSet_keys_mem (m : List (String × CVal)) (k : String)
    (v : CVal) (hm : k ∈ m.map Prod.fst) :
    (dictSet m k v).map Prod.fst = m.map Prod.fst := by
  induction m with
  | nil => simp at hm
  | cons kv rest ih =>
      by_cases hk : kv.1 = k
      · simp [dictSet, hk]
      · have hb : (kv.1 == k) = false := by simp [hk]
        simp only [List.map_cons, List.mem_cons] at hm
        rcases hm with hm | hm
        · exact absurd hm.symm hk
        · simp [dictSet, hb, ih hm]

theorem find?_reverse_of_nodup (kw : List (String × CVal))
    (hnd : (kw.map Prod.fst).Nodup) (k : String) :
    kw.reverse.find? (fun kv => kv.1 == k)
      = kw.find? (fun kv => kv.1 == k) := by
  induction kw with
  | nil => rfl
  | cons kv rest ih =>
      simp only [List.map_cons, List.nodup_cons] at hnd
      rw [List.reverse_cons, List.find?_append, ih hnd.2]
      by_cases hk : kv.1 = k
      · have hnone : rest.find? (fun kv => kv.1 == k) = Option.none := by
          rw [List.find?_eq_none]
          intro x hx hpx
          simp only [beq_iff_eq] at hpx
          have hxm : x.1 ∈ rest.map Prod.fst :=
            List.mem_map_of_mem Prod.fst hx
          rw [hpx, ← hk] at hxm
          exact hnd.1 hxm
        simp [hnone, List.find?_cons, hk]
      · have hb : (kv.1 == k) = false := by simp [hk]
        simp only [List.find?_cons, hb, cond_false]
        cases hrest : rest.find? (fun kv => kv.1 == k) <;> simp [hb]

theorem contains_true_iff (l : List String) (a : String) :
    l.contains a = true ↔ a ∈ l := by
  simp [List.contains, List.elem_iff]

theorem dictGet_dictUpdate_nodup (kw m : List (String × CVal))
    (k : String) (hnd : (kw.map Prod.fst).Nodup) :
    dictGet (dictUpdate m kw) k
      = match dictGet kw k with
        | some v => some v
        | Option.none => dictGet m k := by
  rw [dictGet_dictUpdate kw m k, find?_reverse_of_nodup kw hnd k,
    dictGet_eq_find? kw k]
  cases kw.find? (fun kv => kv.1 == k) <;> rfl

/-- C8: `setup` validates every supplied key against the config's key
set before touching the config.  Any unknown key raises
`GrabMisuseError` with the config left entirely unchanged — no partial
application; when every key is known no error is raised and every
override is applied (the `url` override after resolution against a
truthy current url). -/
theorem setup_unknown_key_atomic (uj : String → String → String)
    (cfg kwargs : List (String × CVal)) :
    ((∃ kv, kv ∈ kwargs ∧ kv.1 ∉ cfg.map Prod.fst) →
      (setupRun uj cfg kwargs).1 = cfg ∧
      ∃ k, (setupRun uj cfg kwargs).2 = some k ∧
        k ∉ cfg.map Prod.fst) ∧
    ((∀ kv ∈ kwargs, kv.1 ∈ cfg.map Prod.fst) →
      (kwargs.map Prod.fst).Nodup →
      (setupRun uj cfg kwargs).2 = Option.none ∧
      (∀ k v, dictGet kwargs k = some v → k ≠ "url" →
        dictGet (setupRun uj cfg kwargs).1 k = some v) ∧
      (∀ v, dictGet kwargs "url" = some v →
        dictGet (setupRun uj cfg kwargs).1 "url"
          = some (if cvalTruthy (dictGet cfg "url") = true then
              absolutizeVal uj (dictGet cfg "url") v else v)) ∧
      (∀ k, dictGet kwargs k = Option.none →
        dictGet (setupRun uj cfg kwargs).1 k = dictGet cfg k)) := by
  constructor
  · rintro ⟨kv0, hmem, hout⟩
    have hsome : (kwargs.find?
        (fun kv => !(cfg.map Prod.fst).contains kv.1)).isSome := by
      rw [List.find?_isSome]
      refine ⟨kv0, hmem, ?_⟩
      have hfb : (cfg.map Prod.fst).contains kv0.1 = false :=
        Bool.eq_false_iff.mpr
          (fun hcon => hout ((contains_true_iff _ _).mp hcon))
      rw [hfb]
      rfl
    obtain ⟨x, hx⟩ := Option.isSome_iff_exists.mp hsome
    have hpx := List.find?_some hx
    have hxout : x.1 ∉ cfg.map Prod.fst := by
      intro hmem2
      rw [(contains_true_iff _ _).mpr hmem2] at hpx
      exact Bool.noConfusion hpx
    have hrunerr : setupRun uj cfg kwargs = (cfg, some x.1) := by
      simp only [setupRun, hx]
    exact ⟨by rw [hrunerr], x.1, by rw [hrunerr], hxout⟩
  · intro hall hnd
    have hnone : kwargs.find?
        (fun kv => !(cfg.map Prod.fst).contains kv.1) = Option.none := by
      rw [List.find?_eq_none]
      intro x hx
      have hct : (cfg.map Prod.fst).contains x.1 = true :=
        (contains_true_iff _ _).mpr (hall x hx)
      rw [hct]
      simp
    by_cases hc : ((kwargs.map Prod.fst).contains "url"
        && cvalTruthy (dictGet cfg "url")) = true
    · have hurlmem : "url" ∈ kwargs.map Prod.fst :=
        (contains_true_iff _ _).mp ((Bool.and_eq_true _ _).mp hc).1
      have htr : cvalTruthy (dictGet cfg "url") = true :=
        ((Bool.and_eq_true _ _).mp hc).2
      obtain ⟨u0, hu0⟩ :=
        Option.isSome_iff_exists.mp (mem_dictGet_isSome hurlmem)
      have hrun : setupRun uj cfg kwargs
          = (dictUpdate cfg (dictSet kwargs "url"
              (absolutizeVal uj (dictGet cfg "url")
                ((dictGet kwargs "url").getD CVal.none))), Option.none) := by
        simp only [setupRun, hnone, hc, if_pos]
      have hnd2 : ((dictSet kwargs "url"
          (absolutizeVal uj (dictGet cfg "url")
            ((dictGet kwargs "url").getD CVal.none))).map Prod.fst).Nodup := by
        rw [dictSet_keys_mem kwargs "url" _ hurlmem]
        exact hnd
      refine ⟨by rw [hrun], ?_, ?_, ?_⟩
      · intro k v hkv hku
        rw [hrun]
        simp only
        rw [dictGet_dictUpdate_nodup _ _ _ hnd2,
          dictGet_dictSet_other kwargs "url" k _ hku, hkv]
      · intro v hv
        rw [hrun]
        simp only
        rw [dictGet_dictUpdate_nodup _ _ _ hnd2, dictGet_dictSet_self]
        rw [hv] at hu0 ⊢
        simp [htr]
      · intro k hk
        have hku : k ≠ "url" := by
          intro he
          rw [he, hu0] at hk
          exact Option.noConfusion hk
        rw [hrun]
        simp only
        rw [dictGet_dictUpdate_nodup _ _ _ hnd2,
          dictGet_dictSet_other kwargs "url" k _ hku, hk]
    · have hrun : setupRun uj cfg kwargs
          = (dictUpdate cfg kwargs, Option.none) := by
        simp only [setupRun, hnone, hc, if_neg, Bool.false_eq_true,
          not_false_eq_true]
      refine ⟨by rw [hrun], ?_, ?_, ?_⟩
      · intro k v hkv hku
        rw [hrun]
        simp only
        rw [dictGet_dictUpdate_nodup _ _ _ hnd, hkv]
      · intro v hv
        have hurlmem : "url" ∈ kwargs.map Prod.fst := dictGet_some_mem hv
        have hfalse : cvalTruthy (dictGet cfg "url") = false := by
          rcases Bool.eq_false_or_eq_true
              (cvalTruthy (dictGet cfg "url")) with ht | hf
          · exact absurd ((Bool.and_eq_true _ _).mpr
              ⟨(contains_true_iff _ _).mpr hurlmem, ht⟩) hc
          · exact hf
        rw [hrun]
        simp only
        rw [dictGet_dictUpdate_nodup _ _ _ hnd, hv]
        simp [hfalse]
      · intro k hk
        rw [hrun]
        simp only
        rw [dictGet_dictUpdate_nodup _ _ _ hnd, hk]

/-- Witness for C8: an unknown key against `default_config` is rejected
with the config unchanged; a known key is applied. -/
theorem setup_unknown_key_atomic_witness :
    ((setupRun ujDemo default_config [("bogus", CVal.int 1)]).1
        = default_config ∧
      ∃ k, (setupRun ujDemo default_config [("bogus", CVal.int 1)]).2
          = some k ∧ k ∉ default_config.map Prod.fst) ∧
    ((setupRun ujDemo default_config [("timeout", CVal.int 5)]).2
        = Option.none ∧
      dictGet (setupRun ujDemo default_config
          [("timeout", CVal.int 5)]).1 "timeout" = some (CVal.int 5)) := by
  constructor
  · exact (setup_unknown_key_atomic ujDemo default_config
      [("bogus", CVal.int 1)]).1
      ⟨("bogus", CVal.int 1), by simp, by decide⟩
  · have h := (setup_unknown_key_atomic ujDemo default_config
      [("timeout", CVal.int 5)]).2
      (by intro kv hkv; simp at hkv; simp [hkv, default_config])
      (by simp)
    exact ⟨h.1, h.2.1 "timeout" (CVal.int 5) (by decide) (by decide)⟩

/-! ## Cookie broadcasting
(src/grab/transport.py, `Urllib3Transport.process_cookie_options`,
lines 520-552)

The source computes the request host with `urlsplit(...).hostname`,
strips a leading `www.`, then sets every name/value pair of the
`cookies` option into the session cookie manager with the stripped host
as the cookie domain, and finally asks the manager for the `Cookie:`
header applicable to the request url.  The cookie manager itself
(grab/cookie.py) is not among the sources; it is modelled from the
specification: a jar keyed by (name, domain) whose request lookup
matches a cookie when its domain equals the request host or is a
dot-suffix of it (the broadcast invariant of spec sections 3.3 and
4.2). -/

/-- A stored cookie (the fields the claim observes). -/
structure CookieRec where
  name : String
  value : String
  domain : String
deriving DecidableEq, Repr

/-- The characters following `://`, if any (the authority part of the
split url). -/
def afterScheme : List Char → Option (List Char)
  | ':' :: '/' :: '/' :: rest => some rest
  | _ :: rest => afterScheme rest
  | [] => none

/-- Model of `urlsplit(url).hostname` for `scheme://host/path` urls. -/
def urlHostname (url : String) : Option String :=
  (afterScheme url.toList).map
    (fun cs => String.mk (cs.takeWhile (fun c => c ≠ '/')))

/-- Embeds the `www.` strip of the request host
(src/grab/transport.py lines 533-537). -/
def stripWww (host : String) : String :=
  match host.toList with
  | 'w' :: 'w' :: 'w' :: '.' :: rest => String.mk rest
  | _ => host

/-- Modelled from the spec: `CookieManager.set(name, value, domain)` —
insertion keyed by (name, domain), replacing an existing cookie. -/
def cmSet (jar : List CookieRec) (n v d : String) : List CookieRec :=
  if jar.any (fun c => c.name == n && c.domain == d) then
    jar.map fun c => if c.name == n && c.domain == d then ⟨n, v, d⟩ else c
  else
    jar ++ [⟨n, v, d⟩]

/-- Modelled from the spec: a stored cookie applies to a request host
that equals its domain or has it as a dot-suffix (`example.com` matches
both `example.com` and `www.example.com`). -/
def domainMatch (host d : String) : Bool :=
  host == d || List.isSuffixOf ('.' :: d.toList) host.toList

def joinCookies : List CookieRec → String
  | [] => ""
  | [c] => c.name ++ "=" ++ c.value
  | c :: rest => c.name ++ "=" ++ c.value ++ "; " ++ joinCookies rest

/-- Modelled from the spec: `CookieManager.get_cookie_header` — the
`name=value` pairs of the cookies applicable to the request host, or
`None` when there are none. -/
def get_cookie_header (jar : List CookieRec) (host : String) :
    Option String :=
  match jar.filter (fun c => domainMatch host c.domain) with
  | [] => Option.none
  | l => some (joinCookies l)

/-- Embeds `Urllib3Transport.process_cookie_options`: broadcast the plain
`cookies` option pairs onto the (www-stripped) request host, then
compute the header.  A falsy (empty) `cookies` option sets nothing. -/
def process_cookie_options (cookiesOpt : Option (List (String × String)))
    (jar : List CookieRec) (request_url : String) :
    List CookieRec × Option String :=
  match urlHostname request_url with
  | some host =>
      let jar2 :=
        match cookiesOpt with
        | some pairs =>
            if pairs.isEmpty then jar
            else pairs.foldl (fun j p => cmSet j p.1 p.2 (stripWww host)) jar
        | Option.none => jar
      (jar2, get_cookie_header jar2 host)
  | Option.none => (jar, get_cookie_header jar "")

/-- C9: a session cookie configured with only a name and value, on a
request to `http://www.example.com/`, is stored with the www-stripped
host `example.com` as its domain and sent in the `Cookie:` header; a
subsequent request to `http://example.com/` includes it as well. -/
theorem cookie_broadcast_www_stripped (n v : String) :
    (process_cookie_options (some [(n, v)]) []
        "http://www.example.com/").1 = [⟨n, v, "example.com"⟩] ∧
    (process_cookie_options (some [(n, v)]) []
        "http://www.example.com/").2 = some (n ++ "=" ++ v) ∧
    (process_cookie_options (some [(n, v)]) [⟨n, v, "example.com"⟩]
        "http://example.com/").2 = some (n ++ "=" ++ v) := by
  have hhost1 : urlHostname "http://www.example.com/"
      = some "www.example.com" := rfl
  have hhost2 : urlHostname "http://example.com/"
      = some "example.com" := rfl
  have hstrip1 : stripWww "www.example.com" = "example.com" := rfl
  have hstrip2 : stripWww "example.com" = "example.com" := rfl
  have hdm1 : domainMatch "www.example.com" "example.com" = true := rfl
  have hdm2 : domainMatch "example.com" "example.com" = true := rfl
  refine ⟨?_, ?_, ?_⟩
  · simp [process_cookie_options, hhost1, hstrip1, cmSet]
  · simp [process_cookie_options, hhost1, hstrip1, cmSet,
      get_cookie_header, hdm1, joinCookies]
  · simp [process_cookie_options, hhost2, hstrip2, cmSet,
      get_cookie_header, hdm2, joinCookies]

end Reacher
